import Mathlib

/-!
Verification of the hawfinch WPS orchestration layer (swallow/processes).

The development shallowly embeds the validation, grouping, progress-reporting
and packaging logic of `wps_run_name.py` and `wps_plot_name.py`:

* Python `float` inputs (longitudes, latitudes) are modelled as exact
  rationals `ℚ`; all compared literals (-180, 180, -90, 90, -179.875, 179.9)
  are exactly the values the source compares against.
* Python `datetime` values are modelled as integer numbers of seconds;
  `timedelta(days = n)` is `n * 86400` seconds.
* Fallible code is modelled with `Except`: the pywps `InvalidParameterValue`
  exception and uncaught Python exceptions become distinct error
  constructors.
-/

/-- Error outcomes of the handlers: `invalidInput` models a raised
`InvalidParameterValue` (surfaced to the client); `valueError` models an
uncaught Python `ValueError`; `exception` models a raised generic
`Exception`; `indexError` models an uncaught `IndexError`. -/
inductive PyErr where
  | invalidInput : String → PyErr
  | valueError : String → PyErr
  | exception : String → PyErr
  | indexError : String → PyErr
deriving DecidableEq

/-- `true` exactly when an `Except` computation did not raise. -/
def exceptOk {ε α : Type} : Except ε α → Bool
  | .ok _ => true
  | .error _ => false

/-- Seconds in one day: `timedelta(days=1)` on second-resolution datetimes. -/
def secondsPerDay : Int := 86400

/-- Embeds `RunNAME._handler` lines 170-175 of `wps_run_name.py`: the two
date checks, on datetimes measured in seconds.

    if params['startdate'] >= params['enddate'] + timedelta(days=1):
        raise InvalidParameterValue(...)
    if (params['enddate'] + timedelta(days=1)) - params['startdate'] >= timedelta(days=93):
        raise InvalidParameterValue(...)
-/
def validateRunDates (startdate enddate : Int) : Except PyErr Unit :=
  if startdate ≥ enddate + secondsPerDay then
    .error (.invalidInput "The end date is earlier than the start date!")
  else if (enddate + secondsPerDay) - startdate ≥ 93 * secondsPerDay then
    .error (.invalidInput "Can only run across a maximum of three months in one go")
  else
    .ok ()

/-- Embeds `RunNAME._handler` lines 133-140 of `wps_run_name.py`: the four
bounding-box checks of the run operation, in source order.  Note that the
source checks only these four one-sided bounds; it never compares the
minimum against the maximum. -/
def validateBBoxRun (minLon maxLon minLat maxLat : ℚ) : Except PyErr Unit :=
  if minLon < -180 then
    .error (.invalidInput "Bounding box minimum longitude input cannot be below -180")
  else if maxLon > 180 then
    .error (.invalidInput "Bounding box maximum longitude input cannot be above 180")
  else if minLat < -90 then
    .error (.invalidInput "Bounding box minimum latitude input cannot be below -90")
  else if maxLat > 90 then
    .error (.invalidInput "Bounding box minimum latitude input cannot be above 90")
  else
    .ok ()

/-- Embeds `PlotNAME._handler` lines 121-128 of `wps_plot_name.py`: the four
bounding-box checks of the plot operation (textually identical to the run
operation's checks). -/
def validateBBoxPlot (minLon maxLon minLat maxLat : ℚ) : Except PyErr Unit :=
  if minLon < -180 then
    .error (.invalidInput "Bounding box minimum longitude input cannot be below -180")
  else if maxLon > 180 then
    .error (.invalidInput "Bounding box maximum longitude input cannot be above 180")
  else if minLat < -90 then
    .error (.invalidInput "Bounding box minimum latitude input cannot be below -90")
  else if maxLat > 90 then
    .error (.invalidInput "Bounding box minimum latitude input cannot be above 90")
  else
    .ok ()

/-- Embeds `RunNAME._handler` lines 152-155 of `wps_run_name.py`:

    if domains[1] == -180 and domains[3] == 180:
        domains[1] = -179.875
        domains[3] = 179.9

`domains[1]` is the minimum longitude, `domains[3]` the maximum. -/
def adjustLongitudeBounds (minLon maxLon : ℚ) : ℚ × ℚ :=
  if minLon = -180 ∧ maxLon = 180 then ((-179.875 : ℚ), (179.9 : ℚ))
  else (minLon, maxLon)

/-- Characterisation of the date validation: it accepts exactly when
`start < end + 1 day` (not `start ≤ end`). -/
theorem validateRunDates_ok_characterisation (s e : Int) :
    exceptOk (validateRunDates s e) = true ↔
      (s < e + secondsPerDay ∧ (e + secondsPerDay) - s < 93 * secondsPerDay) := by
  unfold validateRunDates secondsPerDay
  split_ifs with h1 h2
  · simp only [exceptOk]
    constructor
    · intro h; cases h
    · intro h; omega
  · simp only [exceptOk]
    constructor
    · intro h; cases h
    · intro h; omega
  · simp only [exceptOk]
    constructor
    · intro _; omega
    · intro _; trivial

/-- C1 counterexample: with `start` one hour after `end` (seconds 3600 vs 0),
the end date is strictly before the start date, yet validation succeeds;
this refutes the claimed equivalence with `start ≤ end` and the claim that
any request with end before start fails. -/
theorem dates_end_before_start_accepted :
    exceptOk (validateRunDates 3600 0) = true ∧ ¬ ((3600 : Int) ≤ 0) := by
  constructor
  · rfl
  · decide

/-- C1 (amended): validation succeeds iff `start < end + 1 day` and
`(end + 1 day) - start < 93 days`; consequently for midnight-aligned
datetimes (whole numbers of days) it succeeds iff the start day is at most
the end day and the inclusive day span is below 93, so a span of exactly
93 days fails. -/
theorem validateRunDates_spec :
    (∀ s e : Int, exceptOk (validateRunDates s e) = true ↔
        (s < e + 86400 ∧ (e + 86400) - s < 93 * 86400)) ∧
    (∀ sd ed : Int, exceptOk (validateRunDates (sd * 86400) (ed * 86400)) = true ↔
        (sd ≤ ed ∧ (ed + 1) - sd < 93)) := by
  constructor
  · intro s e
    exact validateRunDates_ok_characterisation s e
  · intro sd ed
    rw [validateRunDates_ok_characterisation]
    unfold secondsPerDay
    constructor
    · intro h; omega
    · intro h; omega

/-- Shared characterisation of the (identical) bounding-box checks of the
run and the plot handlers: validation succeeds exactly when the four
one-sided bounds hold; neither handler compares minimum against maximum. -/
theorem validateBBox_ok_characterisation (a b c d : ℚ) :
    (exceptOk (validateBBoxRun a b c d) = true ↔
      (-180 ≤ a ∧ b ≤ 180 ∧ -90 ≤ c ∧ d ≤ 90)) ∧
    validateBBoxPlot a b c d = validateBBoxRun a b c d := by
  constructor
  · unfold validateBBoxRun
    split_ifs with h1 h2 h3 h4
    · simp only [exceptOk]
      constructor
      · intro h; cases h
      · intro h; exact absurd h.1 (by exact not_le.mpr h1)
    · simp only [exceptOk]
      constructor
      · intro h; cases h
      · intro h; exact absurd h.2.1 (by exact not_le.mpr h2)
    · simp only [exceptOk]
      constructor
      · intro h; cases h
      · intro h; exact absurd h.2.2.1 (by exact not_le.mpr h3)
    · simp only [exceptOk]
      constructor
      · intro h; cases h
      · intro h; exact absurd h.2.2.2 (by exact not_le.mpr h4)
    · simp only [exceptOk]
      constructor
      · intro _
        exact ⟨not_lt.mp h1, not_lt.mp h2, not_lt.mp h3, not_lt.mp h4⟩
      · intro _; trivial
  · unfold validateBBoxRun validateBBoxPlot
    rfl

/-- C2 counterexample: the box `min_lon = 10, max_lon = 5, min_lat = 0,
max_lat = 1` violates the `min < max` ordering on the longitude axis while
keeping every value inside `[-180,180] × [-90,90]`, yet both the run and
the plot handlers accept it; this refutes the claim that any ordering
violation fails with `InvalidInput`. -/
theorem bbox_ordering_not_checked :
    exceptOk (validateBBoxRun 10 5 0 1) = true ∧
    exceptOk (validateBBoxPlot 10 5 0 1) = true ∧
    ¬ ((10 : ℚ) < 5) := by
  refine ⟨rfl, rfl, by norm_num⟩

/-- C2 (amended): in both the run and the plot operations the bounding-box
validation succeeds iff `min_lon ≥ -180`, `max_lon ≤ 180`, `min_lat ≥ -90`
and `max_lat ≤ 90`; the `min < max` ordering (and the remaining one-sided
range bounds) are not checked, and the two handlers implement the same
checks. -/
theorem validateBBox_spec :
    ∀ a b c d : ℚ,
      (exceptOk (validateBBoxRun a b c d) = true ↔
        (-180 ≤ a ∧ b ≤ 180 ∧ -90 ≤ c ∧ d ≤ 90)) ∧
      (exceptOk (validateBBoxPlot a b c d) = true ↔
        (-180 ≤ a ∧ b ≤ 180 ∧ -90 ≤ c ∧ d ≤ 90)) := by
  intro a b c d
  have h := validateBBox_ok_characterisation a b c d
  refine ⟨h.1, ?_⟩
  rw [h.2]
  exact h.1

/-- C8: requesting the full longitude span `(-180, 180)` narrows the bounds
to `(-179.875, 179.9)`; every other pair of longitude bounds is passed
through unchanged. -/
theorem adjustLongitude_spec :
    adjustLongitudeBounds (-180) 180 = ((-179.875 : ℚ), (179.9 : ℚ)) ∧
    ∀ a b : ℚ, ¬ (a = -180 ∧ b = 180) → adjustLongitudeBounds a b = (a, b) := by
  constructor
  · unfold adjustLongitudeBounds
    rw [if_pos ⟨rfl, rfl⟩]
  · intro a b h
    unfold adjustLongitudeBounds
    rw [if_neg h]

/-- Witness for C8: the non-degenerate pair `(0, 1)` is unchanged. -/
theorem adjustLongitude_spec_witness :
    adjustLongitudeBounds 0 1 = ((0 : ℚ), (1 : ℚ)) :=
  adjustLongitude_spec.2 0 1 (by norm_num)

/-- The final deliverable of the plot handler, as set on
`response.outputs['FileContents']`: either literal text data, a single file
returned by path, or a zip archive (archive path plus the files of the
zipped directory), each with its media-type format string. -/
inductive PackagedOutput where
  | textData : String → String → PackagedOutput
  | imageFile : String → String → PackagedOutput
  | zipArchive : String → String → List String → PackagedOutput
deriving DecidableEq

/-- Embeds `PlotNAME._handler` lines 320-335 of `wps_plot_name.py` (result
packaging).  `outdirFiles` is the listing of `plotoptions['outdir']`; the
directory is created lazily by the plotting library when the first image is
written, so it exists iff at least one output file was produced, and
`os.path.exists` is modelled by non-emptiness of the listing.  `runid` is
`request.inputs['filelocation'][0].data`. -/
def packageOutput (outdirFiles : List String) (runid : String) : PackagedOutput :=
  if outdirFiles.isEmpty then
    .textData "text/plain" "No plots created, check input options"
  else if outdirFiles.length = 1 then
    .imageFile "image/png" (outdirFiles.headD "")
  else
    .zipArchive (runid ++ "_plots.zip") "application/x-zipped-shp" outdirFiles

/-- C6 counterexample: with zero output files the packager does return plain
text, but the message is `"No plots created, check input options"`, not the
claimed `"no plots created"`. -/
theorem package_message_mismatch :
    packageOutput [] "run1" =
      PackagedOutput.textData "text/plain" "No plots created, check input options" ∧
    "No plots created, check input options" ≠ "no plots created" := by
  exact ⟨rfl, by decide⟩

/-- C6 (amended): zero output files yield the plain-text result
`"No plots created, check input options"`; exactly one output file is
returned itself with the image/png content type; two or more output files
yield a zip archive named `<run-id>_plots.zip` containing exactly those
files. -/
theorem packageOutput_spec :
    (∀ r, packageOutput [] r =
        PackagedOutput.textData "text/plain" "No plots created, check input options") ∧
    (∀ f r, packageOutput [f] r = PackagedOutput.imageFile "image/png" f) ∧
    (∀ files r, 2 ≤ files.length →
        packageOutput files r =
          PackagedOutput.zipArchive (r ++ "_plots.zip") "application/x-zipped-shp" files) := by
  refine ⟨fun r => rfl, fun f r => rfl, fun files r h => ?_⟩
  unfold packageOutput
  rw [if_neg, if_neg]
  · omega
  · intro hempty
    rw [List.isEmpty_iff] at hempty
    subst hempty
    simp at h

/-- Witness for C6: two files are zipped. -/
theorem packageOutput_spec_witness :
    packageOutput ["a.png", "b.png"] "run1" =
      PackagedOutput.zipArchive "run1_plots.zip" "application/x-zipped-shp"
        ["a.png", "b.png"] :=
  packageOutput_spec.2.2 ["a.png", "b.png"] "run1" (by decide)

/-- Python `str.split(sep)` for a one-character separator, working on the
character list of the string: splits at every occurrence of `sep` and keeps
empty parts (so the number of parts is the number of separators plus one).
`acc` holds the current part in reverse. -/
def pySplitAux (sep : Char) : List Char → List Char → List (List Char)
  | [], acc => [acc.reverse]
  | c :: rest, acc =>
    if c = sep then acc.reverse :: pySplitAux sep rest []
    else pySplitAux sep rest (c :: acc)

/-- Python `str.split(sep)` for a one-character separator. -/
def pySplit (sep : Char) (l : List Char) : List (List Char) :=
  pySplitAux sep l []

/-- Base-10 value of a digit string, most significant digit first. -/
def digitsVal (l : List Char) : Nat :=
  l.foldl (fun n c => n * 10 + (c.toNat - 48)) 0

/-- Python `int(str)` first strips leading and trailing whitespace. -/
def pyStrip (l : List Char) : List Char :=
  ((l.dropWhile Char.isWhitespace).reverse.dropWhile Char.isWhitespace).reverse

/-- Python `int(·)` applied to a string: optional surrounding whitespace,
an optional `+`/`-` sign, then one or more decimal digits.  Returns `none`
where Python raises `ValueError`.  (Digit-group underscores are not
modelled; no claim involves them.) -/
def pyIntChars (l : List Char) : Option Int :=
  match pyStrip l with
  | '-' :: rest =>
    if rest ≠ [] ∧ rest.all Char.isDigit then some (-(digitsVal rest : Int)) else none
  | '+' :: rest =>
    if rest ≠ [] ∧ rest.all Char.isDigit then some ((digitsVal rest : Int)) else none
  | t => if t ≠ [] ∧ t.all Char.isDigit then some ((digitsVal t : Int)) else none

/-- Embeds `RunNAME.translate_elevation` (lines 196-210 of
`wps_run_name.py`).  The two-way unpacking `mini, maxi = split('-')` is
outside the `try` block, so a split with a number of parts other than two
raises an uncaught `ValueError`; only the `int(...)` conversions are
guarded, producing the "cannot find two numbers" `InvalidParameterValue`. -/
def translate_elevation (elevation_range : String) : Except PyErr (Int × Int) :=
  if ('-' : Char) ∈ elevation_range.data then
    match pySplit '-' elevation_range.data with
    | [m, x] =>
      match pyIntChars m, pyIntChars x with
      | some mini, some maxi =>
        if mini ≥ maxi then
          .error (.invalidInput ("The value " ++ elevation_range ++
            " is incorrect: minimum is not less than maximum"))
        else if mini < 0 ∨ maxi < 0 then
          .error (.invalidInput ("The value " ++ elevation_range ++
            " is incorrect: Entire range must be above 0"))
        else .ok (mini, maxi)
      | _, _ =>
        .error (.invalidInput ("The value " ++ elevation_range ++
          " is incorrect: cannot find two numbers"))
    | _ => .error (.valueError "not exactly two values to unpack from elevation_range.split")
  else
    .error (.invalidInput ("The value \"" ++ elevation_range ++
      "\" does not contain a \"-\" character to define a range, e.g. 0-100"))

lemma pySplitAux_no_sep (sep : Char) :
    ∀ (l acc : List Char), sep ∉ acc → ∀ part ∈ pySplitAux sep l acc, sep ∉ part := by
  intro l
  induction l with
  | nil =>
    intro acc hacc part hp
    simp only [pySplitAux, List.mem_singleton] at hp
    subst hp
    simpa using hacc
  | cons c rest ih =>
    intro acc hacc part hp
    simp only [pySplitAux] at hp
    by_cases hc : c = sep
    · rw [if_pos hc] at hp
      rcases List.mem_cons.mp hp with h | h
      · subst h; simpa using hacc
      · exact ih [] (by simp) part h
    · rw [if_neg hc] at hp
      refine ih (c :: acc) ?_ part hp
      intro hmem
      rcases List.mem_cons.mp hmem with h | h
      · exact hc h.symm
      · exact hacc h

lemma pySplitAux_no_sep_eq (sep : Char) :
    ∀ (l acc : List Char), sep ∉ l → pySplitAux sep l acc = [acc.reverse ++ l] := by
  intro l
  induction l with
  | nil => intro acc _; simp [pySplitAux]
  | cons c rest ih =>
    intro acc hl
    have hc : ¬ c = sep := fun h => hl (by simp [h])
    simp only [pySplitAux, if_neg hc]
    rw [ih (c :: acc) (fun h => hl (List.mem_cons_of_mem _ h))]
    simp

lemma pySplitAux_append (sep : Char) :
    ∀ (l1 l2 acc : List Char), sep ∉ l1 →
      pySplitAux sep (l1 ++ sep :: l2) acc = (acc.reverse ++ l1) :: pySplit sep l2 := by
  intro l1
  induction l1 with
  | nil =>
    intro l2 acc _
    simp [pySplitAux, pySplit]
  | cons c rest ih =>
    intro l2 acc h
    have hc : ¬ c = sep := fun hh => h (by simp [hh])
    simp only [List.cons_append, pySplitAux, if_neg hc]
    rw [show rest.append (sep :: l2) = rest ++ sep :: l2 from rfl]
    rw [ih l2 (c :: acc) (fun hh => h (List.mem_cons_of_mem _ hh))]
    simp

lemma pySplit_two (sep : Char) (l1 l2 : List Char) (h1 : sep ∉ l1) (h2 : sep ∉ l2) :
    pySplit sep (l1 ++ sep :: l2) = [l1, l2] := by
  unfold pySplit
  rw [pySplitAux_append sep l1 l2 [] h1]
  simp [pySplit, pySplitAux_no_sep_eq sep l2 [] h2]

lemma pySplitAux_length (sep : Char) :
    ∀ (l acc : List Char), (pySplitAux sep l acc).length = l.count sep + 1 := by
  intro l
  induction l with
  | nil => intro acc; simp [pySplitAux]
  | cons c rest ih =>
    intro acc
    simp only [pySplitAux]
    by_cases hc : c = sep
    · rw [if_pos hc]
      simp [List.count_cons, hc, ih]
    · rw [if_neg hc]
      rw [ih]
      have : ¬ sep = c := fun h => hc h.symm
      simp [List.count_cons, this, Ne.symm hc]

lemma isDigit_not_whitespace {c : Char} (h : c.isDigit = true) : c.isWhitespace = false := by
  cases hws : c.isWhitespace
  · rfl
  · have hmem : c = ' ' ∨ c = '\t' ∨ c = '\r' ∨ c = '\n' := by
      have := hws
      simp [Char.isWhitespace] at this
      tauto
    rcases hmem with h1 | h1 | h1 | h1 <;> subst h1 <;> exact absurd h (by decide)

lemma dropWhile_eq_self_of_head (p : Char → Bool) (l : List Char)
    (h : ∀ c ∈ l, p c = false) : l.dropWhile p = l := by
  cases l with
  | nil => rfl
  | cons c rest =>
    have : ¬ p c := by
      rw [h c (by simp)]
      exact Bool.false_ne_true
    exact List.dropWhile_cons_of_neg this

lemma pyStrip_eq_self_of_digits (l : List Char) (h : l.all Char.isDigit = true) :
    pyStrip l = l := by
  have hall : ∀ c ∈ l, Char.isWhitespace c = false := by
    intro c hc
    exact isDigit_not_whitespace (List.all_eq_true.mp h c hc)
  unfold pyStrip
  rw [dropWhile_eq_self_of_head _ _ hall]
  rw [dropWhile_eq_self_of_head _ _ (fun c hc => hall c (List.mem_reverse.mp hc))]
  exact List.reverse_reverse l

lemma mem_pyStrip {c : Char} {l : List Char} (h : c ∈ pyStrip l) : c ∈ l := by
  unfold pyStrip at h
  rw [List.mem_reverse] at h
  have h1 : c ∈ (l.dropWhile Char.isWhitespace).reverse :=
    (List.dropWhile_sublist _).subset h
  rw [List.mem_reverse] at h1
  exact (List.dropWhile_sublist _).subset h1

lemma dash_not_digit {l : List Char} (h : l.all Char.isDigit = true) :
    ('-' : Char) ∉ l := by
  intro hmem
  have := List.all_eq_true.mp h _ hmem
  exact absurd this (by decide)

lemma pyIntChars_digits (l : List Char) (hne : l ≠ []) (h : l.all Char.isDigit = true) :
    pyIntChars l = some ((digitsVal l : Nat) : Int) := by
  unfold pyIntChars
  rw [pyStrip_eq_self_of_digits l h]
  cases l with
  | nil => exact absurd rfl hne
  | cons c rest =>
    have hcd : c.isDigit = true := List.all_eq_true.mp h c (by simp)
    have hcdash : c ≠ '-' := by
      intro hc; subst hc; exact absurd hcd (by decide)
    have hcplus : c ≠ '+' := by
      intro hc; subst hc; exact absurd hcd (by decide)
    split
    · rename_i heq
      exact absurd (List.head_eq_of_cons_eq heq.symm) (fun hh => hcdash hh.symm)
    · rename_i heq
      exact absurd (List.head_eq_of_cons_eq heq.symm) (fun hh => hcplus hh.symm)
    · rw [if_pos ⟨hne, h⟩]

lemma pyIntChars_nonneg {l : List Char} (hnd : ('-' : Char) ∉ l) {v : Int}
    (h : pyIntChars l = some v) : 0 ≤ v := by
  unfold pyIntChars at h
  split at h
  · rename_i heq
    exact absurd (by rw [heq]; simp : ('-' : Char) ∈ pyStrip l)
      (fun hm => hnd (mem_pyStrip hm))
  · rename_i heq
    split at h
    · have : v = ((digitsVal _ : Nat) : Int) := (Option.some.inj h).symm
      rw [this]
      exact Int.natCast_nonneg _
    · exact absurd h (by simp)
  · split at h
    · have : v = ((digitsVal _ : Nat) : Int) := (Option.some.inj h).symm
      rw [this]
      exact Int.natCast_nonneg _
    · exact absurd h (by simp)

lemma pySplit_parts_no_sep {sep : Char} {l : List Char} {part : List Char}
    (h : part ∈ pySplit sep l) : sep ∉ part :=
  pySplitAux_no_sep sep l [] (by simp) part h

lemma string_append_left_cancel {a x y : String} (h : a ++ x = a ++ y) : x = y := by
  have hd : a.data ++ x.data = a.data ++ y.data := by
    rw [← String.data_append, ← String.data_append, h]
  have hxy := List.append_cancel_left hd
  cases x; cases y; exact congrArg String.mk hxy

lemma msg_suffix_ne {s x y : String} (hne : x ≠ y) :
    "The value " ++ s ++ x ≠ "The value " ++ s ++ y := fun h =>
  hne (string_append_left_cancel h)

/-- A split with two or more separators can never unpack into two values:
`pySplit` yields `count + 1` parts, so any input whose character data holds
at least two `'-'` characters reaches the two-way unpacking with three or
more parts and raises the uncaught `ValueError`. -/
lemma translate_elevation_multi_dash (s : String) (hcount : 2 ≤ s.data.count '-') :
    translate_elevation s =
      .error (.valueError "not exactly two values to unpack from elevation_range.split") := by
  have hmem2 : ('-' : Char) ∈ s.data :=
    List.count_pos_iff.mp (by omega)
  have hlen : (pySplit '-' s.data).length = s.data.count '-' + 1 :=
    pySplitAux_length '-' s.data []
  unfold translate_elevation
  rw [if_pos hmem2]
  rcases hps : pySplit '-' s.data with _ | ⟨m, _ | ⟨x, _ | ⟨y, rest⟩⟩⟩
  · dsimp only
  · dsimp only
  · rw [hps] at hlen
    simp only [List.length_cons, List.length_nil] at hlen
    omega
  · dsimp only

/-- C10: the two parts produced by the two-way split can only parse to
non-negative integers (a part of `split('-')` never contains `'-'`, and
Python's `int` yields a negative value only from a leading `'-'`), so every
successful translation has non-negative bounds and the dedicated
negative-bounds `InvalidParameterValue` branch is unreachable; every
string with more than one `'-'` character — in particular any encoding of
a negative lower bound, such as `"-5-10"` — instead raises an uncaught
`ValueError` from the two-way unpacking of `split('-')`. -/
theorem translate_elevation_nonneg_unreachable :
    (∀ (s : String) (m x : List Char) (mini maxi : Int),
        pySplit '-' s.data = [m, x] →
        pyIntChars m = some mini → pyIntChars x = some maxi →
        0 ≤ mini ∧ 0 ≤ maxi) ∧
    (∀ s : String, translate_elevation s ≠
        .error (.invalidInput ("The value " ++ s ++
          " is incorrect: Entire range must be above 0"))) ∧
    (∀ s : String, 2 ≤ s.data.count '-' →
        translate_elevation s =
          .error (.valueError "not exactly two values to unpack from elevation_range.split")) ∧
    (∀ (s : String) (a b : Int), translate_elevation s = .ok (a, b) → 0 ≤ a ∧ 0 ≤ b) ∧
    translate_elevation "-5-10" =
      .error (.valueError "not exactly two values to unpack from elevation_range.split") := by
  have hparts : ∀ (s : String) (m x : List Char) (mini maxi : Int),
      pySplit '-' s.data = [m, x] →
      pyIntChars m = some mini → pyIntChars x = some maxi →
      0 ≤ mini ∧ 0 ≤ maxi := by
    intro s m x mini maxi hsplit hm hx
    have hmnd : ('-' : Char) ∉ m := pySplit_parts_no_sep (by rw [hsplit]; simp)
    have hxnd : ('-' : Char) ∉ x := pySplit_parts_no_sep (by rw [hsplit]; simp)
    exact ⟨pyIntChars_nonneg hmnd hm, pyIntChars_nonneg hxnd hx⟩
  refine ⟨hparts, ?_, fun s hc => translate_elevation_multi_dash s hc, ?_, rfl⟩
  · intro s h
    unfold translate_elevation at h
    split at h
    · split at h
      · rename_i m x hsplit
        split at h
        · rename_i mini maxi hm hx
          split_ifs at h with hge hneg
          · injection h with h1
            injection h1 with h2
            exact msg_suffix_ne (by decide) h2
          · have := hparts s m x mini maxi hsplit hm hx
            omega
        · injection h with h1
          injection h1 with h2
          exact msg_suffix_ne (by decide) h2
      · injection h with h1
        exact PyErr.noConfusion h1
    · injection h with h1
      injection h1 with h2
      have el := congrArg String.length h2
      simp only [String.length_append] at el
      have e1 : ("The value \"" : String).length = 11 := rfl
      have e2 : ("\" does not contain a \"-\" character to define a range, e.g. 0-100" : String).length = 64 := rfl
      have e3 : ("The value " : String).length = 10 := rfl
      have e4 : (" is incorrect: Entire range must be above 0" : String).length = 43 := rfl
      omega
  · intro s a b h
    unfold translate_elevation at h
    split at h
    · split at h
      · rename_i m x hsplit
        split at h
        · rename_i mini maxi hm hx
          split_ifs at h with hge hneg
          have hnn := hparts s m x mini maxi hsplit hm hx
          injection h with h1
          rw [Prod.mk.injEq] at h1
          obtain ⟨ha, hb⟩ := h1
          rw [← ha, ← hb]
          exact hnn
        · exact Except.noConfusion h
      · exact Except.noConfusion h
    · exact Except.noConfusion h

/-- Witness for C10: "1-2-3" holds two `'-'` characters, so it raises the
uncaught `ValueError`. -/
theorem translate_elevation_nonneg_unreachable_witness :
    translate_elevation "1-2-3" =
      .error (.valueError "not exactly two values to unpack from elevation_range.split") :=
  translate_elevation_nonneg_unreachable.2.2.1 "1-2-3" (by decide)

/-- C4 counterexample: the elevation-range string "-5-10" encodes a
negative lower bound; the claim requires it to fail with a descriptive
`InvalidInput` error, but `split('-')` yields three parts and the two-way
unpacking raises an uncaught `ValueError` instead. -/
theorem translate_elevation_negative_uncaught :
    translate_elevation "-5-10" =
      .error (.valueError "not exactly two values to unpack from elevation_range.split") ∧
    (-5 : Int) < 0 := ⟨rfl, by decide⟩

/-- C4 (amended): for digit strings `a`, `b` the input "a-b" succeeds with
`(a, b)` when `a < b` and fails with the "minimum is not less than maximum"
`InvalidParameterValue` when `a ≥ b`; an input without `'-'` fails with the
missing-separator `InvalidParameterValue`; a two-part input whose parts do
not both parse as integers fails with the "cannot find two numbers"
`InvalidParameterValue`; but an input with two or more `'-'` characters
(in particular every encoding of a negative bound) raises an uncaught
`ValueError` from the two-way unpacking rather than an `InvalidInput`
error. -/
theorem translate_elevation_spec :
    (∀ l1 l2 : List Char, l1 ≠ [] → l2 ≠ [] →
        l1.all Char.isDigit = true → l2.all Char.isDigit = true →
        ((digitsVal l1 : Nat) : Int) < ((digitsVal l2 : Nat) : Int) →
        translate_elevation (String.mk (l1 ++ '-' :: l2)) =
          .ok (((digitsVal l1 : Nat) : Int), ((digitsVal l2 : Nat) : Int))) ∧
    (∀ l1 l2 : List Char, l1 ≠ [] → l2 ≠ [] →
        l1.all Char.isDigit = true → l2.all Char.isDigit = true →
        ((digitsVal l2 : Nat) : Int) ≤ ((digitsVal l1 : Nat) : Int) →
        translate_elevation (String.mk (l1 ++ '-' :: l2)) =
          .error (.invalidInput ("The value " ++ String.mk (l1 ++ '-' :: l2) ++
            " is incorrect: minimum is not less than maximum"))) ∧
    (∀ s : String, ('-' : Char) ∉ s.data →
        translate_elevation s =
          .error (.invalidInput ("The value \"" ++ s ++
            "\" does not contain a \"-\" character to define a range, e.g. 0-100"))) ∧
    (∀ l1 l2 : List Char, ('-' : Char) ∉ l1 → ('-' : Char) ∉ l2 →
        (pyIntChars l1 = none ∨ pyIntChars l2 = none) →
        translate_elevation (String.mk (l1 ++ '-' :: l2)) =
          .error (.invalidInput ("The value " ++ String.mk (l1 ++ '-' :: l2) ++
            " is incorrect: cannot find two numbers"))) ∧
    (∀ s : String, 2 ≤ s.data.count '-' →
        translate_elevation s =
          .error (.valueError "not exactly two values to unpack from elevation_range.split")) := by
  have hmem : ∀ l1 l2 : List Char, ('-' : Char) ∈ l1 ++ '-' :: l2 := by
    intro l1 l2
    exact List.mem_append_right l1 (by simp)
  refine ⟨?_, ?_, ?_, ?_, ?_⟩
  · intro l1 l2 h1 h2 hd1 hd2 hlt
    have hnd1 : ('-' : Char) ∉ l1 := dash_not_digit hd1
    have hnd2 : ('-' : Char) ∉ l2 := dash_not_digit hd2
    unfold translate_elevation
    rw [if_pos (hmem l1 l2)]
    rw [show (String.mk (l1 ++ '-' :: l2)).data = l1 ++ '-' :: l2 from rfl]
    rw [pySplit_two '-' l1 l2 hnd1 hnd2]
    dsimp only
    rw [pyIntChars_digits l1 h1 hd1, pyIntChars_digits l2 h2 hd2]
    dsimp only
    rw [if_neg (by omega), if_neg (by omega)]
  · intro l1 l2 h1 h2 hd1 hd2 hge
    have hnd1 : ('-' : Char) ∉ l1 := dash_not_digit hd1
    have hnd2 : ('-' : Char) ∉ l2 := dash_not_digit hd2
    unfold translate_elevation
    rw [if_pos (hmem l1 l2)]
    rw [show (String.mk (l1 ++ '-' :: l2)).data = l1 ++ '-' :: l2 from rfl]
    rw [pySplit_two '-' l1 l2 hnd1 hnd2]
    dsimp only
    rw [pyIntChars_digits l1 h1 hd1, pyIntChars_digits l2 h2 hd2]
    dsimp only
    rw [if_pos (by omega)]
  · intro s hs
    unfold translate_elevation
    rw [if_neg hs]
  · intro l1 l2 hnd1 hnd2 hnone
    unfold translate_elevation
    rw [if_pos (hmem l1 l2)]
    rw [show (String.mk (l1 ++ '-' :: l2)).data = l1 ++ '-' :: l2 from rfl]
    rw [pySplit_two '-' l1 l2 hnd1 hnd2]
    dsimp only
    rcases hnone with hn | hn
    · rw [hn]
    · rw [hn]
      cases hv : pyIntChars l1 <;> dsimp only
  · intro s hcount
    exact translate_elevation_multi_dash s hcount

/-- Witness for C4 (amended): "0-100" translates to the pair (0, 100). -/
theorem translate_elevation_spec_witness :
    translate_elevation (String.mk (['0'] ++ '-' :: ['1', '0', '0'])) =
      .ok (((digitsVal ['0'] : Nat) : Int), ((digitsVal ['1', '0', '0'] : Nat) : Int)) :=
  translate_elevation_spec.1 ['0'] ['1', '0', '0']
    (by decide) (by decide) (by decide) (by decide) (by decide)

/-- Python `str.endswith(t)`.  (Lean's own `String.endsWith` is
compiled code that the kernel cannot evaluate, so the suffix test is
expressed through `List.isSuffixOf` on the character lists.) -/
def pyEndsWith (s t : String) : Bool :=
  List.isSuffixOf t.data s.data

/-- Embeds the group-number extraction of `PlotNAME._handler` lines 176-180
of `wps_plot_name.py`: `groupnum = filename[14]` (an uncaught `IndexError`
when the name is shorter), then `int(groupnum)` inside `try`, whose failure
raises `Exception('Cannot identify groupnumber %s' % groupnum)`. -/
def extractGroupnum (filename : String) : Except PyErr Nat :=
  match filename.data.get? 14 with
  | none => .error (.indexError "string index out of range")
  | some c =>
    if c.isDigit then .ok (c.toNat - 48)
    else .error (.exception ("Cannot identify groupnumber " ++ String.mk [c]))

/-- The `groups` dict update of lines 182-186: copy the file into an
existing group's staging directory, or create a fresh staging directory
(`tempfile.mkdtemp()`) holding just this file.  A group is represented by
its index paired with the listing of its staging directory in copy order;
the association list is kept in insertion order like a Python dict. -/
def addFile (groups : List (Nat × List String)) (g : Nat) (f : String) :
    List (Nat × List String) :=
  match groups with
  | [] => [(g, [f])]
  | (k, fs) :: rest =>
    if k = g then (k, fs ++ [f]) :: rest else (k, fs) :: addFile rest g f

/-- The grouping loop of lines 172-186 over `os.listdir(rundir/outputs)`:
files not ending in "txt" are skipped; otherwise the group number is
extracted and the file is copied into its group's staging directory. -/
def buildGroupsAux (acc : List (Nat × List String)) :
    List String → Except PyErr (List (Nat × List String))
  | [] => .ok acc
  | f :: rest =>
    if pyEndsWith f "txt" then
      match extractGroupnum f with
      | .error e => .error e
      | .ok g => buildGroupsAux (addFile acc g f) rest
    else buildGroupsAux acc rest

/-- The complete grouping pass of `PlotNAME._handler` lines 172-186. -/
def buildGroups (filenames : List String) : Except PyErr (List (Nat × List String)) :=
  buildGroupsAux [] filenames

/-- Comparison used by `sorted(groups.items())` (line 196): group indices
are distinct, so sorting the items coincides with sorting by key. -/
def keyLE (a b : Nat × List String) : Prop := a.1 ≤ b.1

instance : DecidableRel keyLE := fun a b => Nat.decLe a.1 b.1

instance : IsTotal (Nat × List String) keyLE := ⟨fun a b => Nat.le_total a.1 b.1⟩

instance : IsTrans (Nat × List String) keyLE := ⟨fun _ _ _ h1 h2 => Nat.le_trans h1 h2⟩

/-- `sorted(groups.items())` of line 196: the groups in ascending order of
group index. -/
def sortGroups (gs : List (Nat × List String)) : List (Nat × List String) :=
  List.insertionSort keyLE gs

/-- Grouping followed by the sorted iteration order of the plotting loop. -/
def groupOutputs (filenames : List String) : Except PyErr (List (Nat × List String)) :=
  (buildGroups filenames).map sortGroups

def groupKeys (gs : List (Nat × List String)) : List Nat := gs.map Prod.fst

/-- `true` when a filename yields group index `k`. -/
def extractsTo (f : String) (k : Nat) : Bool :=
  match extractGroupnum f with
  | .ok g => g == k
  | .error _ => false

/-- The files a directory listing contributes to group `k`, in listing
order. -/
def txtFilesOfGroup (k : Nat) (fns : List String) : List String :=
  fns.filter (fun f => pyEndsWith f "txt" && extractsTo f k)

/-- Association-list lookup returning `[]` for an absent key. -/
def lookupG (gs : List (Nat × List String)) (k : Nat) : List String :=
  match gs with
  | [] => []
  | (k0, fs) :: rest => if k0 = k then fs else lookupG rest k

lemma groupKeys_cons (p : Nat × List String) (rest : List (Nat × List String)) :
    groupKeys (p :: rest) = p.1 :: groupKeys rest := rfl

lemma addFile_lookup (g : Nat) (f : String) :
    ∀ (gs : List (Nat × List String)) (k : Nat),
      lookupG (addFile gs g f) k =
        if k = g then lookupG gs k ++ [f] else lookupG gs k := by
  intro gs
  induction gs with
  | nil =>
    intro k
    by_cases hk : k = g
    · subst hk; simp [addFile, lookupG]
    · have hk2 : ¬ g = k := fun h => hk h.symm
      simp [addFile, lookupG, hk, hk2]
  | cons p rest ih =>
    intro k
    obtain ⟨k0, fs⟩ := p
    by_cases h0 : k0 = g
    · subst h0
      simp only [addFile, if_pos rfl]
      by_cases hk : k0 = k
      · subst hk; simp [lookupG]
      · have hk2 : ¬ k = k0 := fun h => hk h.symm
        simp [lookupG, hk, hk2]
    · simp only [addFile, if_neg h0, lookupG]
      by_cases hk : k0 = k
      · subst hk
        simp only [if_pos rfl]
        rw [if_neg h0]
        simp
      · simp only [if_neg hk]
        exact ih k

lemma addFile_keys (g : Nat) (f : String) :
    ∀ gs : List (Nat × List String),
      groupKeys (addFile gs g f) =
        if g ∈ groupKeys gs then groupKeys gs else groupKeys gs ++ [g] := by
  intro gs
  induction gs with
  | nil => simp [addFile, groupKeys]
  | cons p rest ih =>
    obtain ⟨k0, fs⟩ := p
    by_cases h0 : k0 = g
    · subst h0
      rw [if_pos (show k0 ∈ groupKeys ((k0, fs) :: rest) from List.mem_cons_self _ _)]
      simp [addFile, groupKeys]
    · simp only [addFile, if_neg h0, groupKeys_cons]
      rw [ih]
      by_cases hmem : g ∈ groupKeys rest
      · rw [if_pos hmem, if_pos (List.mem_cons_of_mem _ hmem)]
      · have houter : g ∉ (k0, fs).1 :: groupKeys rest := by
          intro hc
          rcases List.mem_cons.mp hc with hc1 | hc2
          · exact h0 hc1.symm
          · exact hmem hc2
        rw [if_neg hmem, if_neg houter]
        simp

lemma addFile_keys_nodup (g : Nat) (f : String) (gs : List (Nat × List String))
    (h : (groupKeys gs).Nodup) : (groupKeys (addFile gs g f)).Nodup := by
  rw [addFile_keys]
  by_cases hmem : g ∈ groupKeys gs
  · rw [if_pos hmem]; exact h
  · rw [if_neg hmem]
    rw [List.nodup_append]
    exact ⟨h, List.nodup_singleton g, by simpa using fun hg => hmem hg⟩

lemma addFile_nonempty (g : Nat) (f : String) :
    ∀ gs : List (Nat × List String), (∀ p ∈ gs, p.2 ≠ []) →
      ∀ p ∈ addFile gs g f, p.2 ≠ [] := by
  intro gs
  induction gs with
  | nil =>
    intro _ p hp
    simp only [addFile, List.mem_singleton] at hp
    subst hp
    simp
  | cons q rest ih =>
    intro hall p hp
    obtain ⟨k0, fs⟩ := q
    by_cases h0 : k0 = g
    · subst h0
      simp only [addFile, if_pos rfl] at hp
      rcases List.mem_cons.mp hp with h1 | h1
      · subst h1; simp
      · exact hall p (List.mem_cons_of_mem _ h1)
    · simp only [addFile, if_neg h0] at hp
      rcases List.mem_cons.mp hp with h1 | h1
      · subst h1
        exact hall (k0, fs) (by simp)
      · exact ih (fun q hq => hall q (List.mem_cons_of_mem _ hq)) p h1

lemma buildGroupsAux_spec :
    ∀ (fns : List String) (acc gs : List (Nat × List String)),
      buildGroupsAux acc fns = .ok gs →
      (∀ k, lookupG gs k = lookupG acc k ++ txtFilesOfGroup k fns) ∧
      ((groupKeys acc).Nodup → (groupKeys gs).Nodup) ∧
      ((∀ p ∈ acc, p.2 ≠ []) → ∀ p ∈ gs, p.2 ≠ []) := by
  intro fns
  induction fns with
  | nil =>
    intro acc gs h
    simp only [buildGroupsAux] at h
    injection h with h
    subst h
    refine ⟨fun k => by simp [txtFilesOfGroup], id, id⟩
  | cons f rest ih =>
    intro acc gs h
    simp only [buildGroupsAux] at h
    by_cases hend : pyEndsWith f "txt"
    · rw [if_pos hend] at h
      cases hex : extractGroupnum f with
      | error e => rw [hex] at h; exact Except.noConfusion h
      | ok g =>
        rw [hex] at h
        obtain ⟨hlook, hnd, hne⟩ := ih (addFile acc g f) gs h
        refine ⟨?_, ?_, ?_⟩
        · intro k
          rw [hlook k, addFile_lookup]
          unfold txtFilesOfGroup
          rw [List.filter_cons]
          by_cases hk : k = g
          · subst hk
            have : (pyEndsWith f "txt" && extractsTo f k) = true := by
              rw [hend]
              simp [extractsTo, hex]
            rw [if_pos rfl, if_pos this]
            simp [txtFilesOfGroup]
          · have : (pyEndsWith f "txt" && extractsTo f k) = false := by
              simp [extractsTo, hex]
              intro
              exact fun hg => absurd hg.symm hk
            rw [if_neg hk, if_neg (by rw [this]; exact Bool.false_ne_true)]
        · intro hacc
          exact hnd (addFile_keys_nodup g f acc hacc)
        · intro hacc
          exact hne (addFile_nonempty g f acc hacc)
    · rw [if_neg hend] at h
      obtain ⟨hlook, hnd, hne⟩ := ih acc gs h
      refine ⟨?_, hnd, hne⟩
      intro k
      rw [hlook k]
      unfold txtFilesOfGroup
      rw [List.filter_cons]
      have hcond : ¬ (pyEndsWith f "txt" && extractsTo f k) = true := by
        rw [show pyEndsWith f "txt" = false from by simpa using hend]
        simp
      rw [if_neg hcond]

lemma mem_lookupG :
    ∀ gs : List (Nat × List String), (groupKeys gs).Nodup →
      ∀ k fs, (k, fs) ∈ gs → lookupG gs k = fs := by
  intro gs
  induction gs with
  | nil => intro _ k fs h; cases h
  | cons p rest ih =>
    intro hnd k fs h
    obtain ⟨k0, fs0⟩ := p
    rw [groupKeys_cons] at hnd
    rcases List.mem_cons.mp h with h1 | h1
    · injection h1 with e1 e2
      subst e1
      subst e2
      simp [lookupG]
    · have hk0 : ¬ k0 = k := by
        intro he
        subst he
        exact (List.nodup_cons.mp hnd).1
          (by simpa [groupKeys] using List.mem_map_of_mem Prod.fst h1)
      simp only [lookupG, if_neg hk0]
      exact ih (List.nodup_cons.mp hnd).2 k fs h1

lemma lookupG_ne_nil_mem :
    ∀ gs : List (Nat × List String), ∀ k, lookupG gs k ≠ [] → k ∈ groupKeys gs := by
  intro gs
  induction gs with
  | nil => intro k h; exact absurd rfl h
  | cons p rest ih =>
    intro k h
    obtain ⟨k0, fs0⟩ := p
    rw [groupKeys_cons]
    by_cases hk : k0 = k
    · exact hk ▸ List.mem_cons_self _ _
    · simp only [lookupG, if_neg hk] at h
      exact List.mem_cons_of_mem _ (ih k h)

lemma groupOutputs_ok :
    ∀ (fns : List String) (gs : List (Nat × List String)),
      groupOutputs fns = .ok gs →
      (groupKeys gs).Nodup ∧ List.Pairwise keyLE gs ∧
      (∀ k fs, (k, fs) ∈ gs → fs = txtFilesOfGroup k fns ∧ fs ≠ []) ∧
      (∀ f k, f ∈ fns → pyEndsWith f "txt" = true → extractGroupnum f = .ok k →
        k ∈ groupKeys gs) := by
  intro fns gs h
  unfold groupOutputs at h
  cases hb : buildGroups fns with
  | error e => rw [hb] at h; exact Except.noConfusion h
  | ok gs0 =>
    rw [hb] at h
    have hgs : gs = sortGroups gs0 := (Option.some.inj (congrArg Except.toOption h)).symm
    obtain ⟨hlook, hnd, hne⟩ := buildGroupsAux_spec fns [] gs0 hb
    have hnd0 : (groupKeys gs0).Nodup := hnd (by simp [groupKeys])
    have hperm : List.Perm (sortGroups gs0) gs0 := List.perm_insertionSort keyLE gs0
    have hkeysperm : List.Perm (groupKeys (sortGroups gs0)) (groupKeys gs0) :=
      hperm.map Prod.fst
    have hndgs : (groupKeys gs).Nodup := by
      rw [hgs]
      exact hkeysperm.nodup_iff.mpr hnd0
    refine ⟨hndgs, ?_, ?_, ?_⟩
    · rw [hgs]
      exact List.sorted_insertionSort keyLE gs0
    · intro k fs hmem
      have hmem0 : (k, fs) ∈ gs0 := hperm.subset (hgs ▸ hmem)
      have hl := mem_lookupG gs0 hnd0 k fs hmem0
      have : lookupG gs0 k = txtFilesOfGroup k fns := by
        rw [hlook k]
        simp [lookupG]
      refine ⟨by rw [← hl, this], ?_⟩
      exact hne (by intro p hp; cases hp) (k, fs) hmem0
    · intro f k hf hend hex
      have hftxt : f ∈ txtFilesOfGroup k fns := by
        unfold txtFilesOfGroup
        rw [List.mem_filter]
        refine ⟨hf, ?_⟩
        rw [hend]
        simp [extractsTo, hex]
      have hlk : lookupG gs0 k ≠ [] := by
        rw [hlook k]
        simp only [lookupG]
        intro hc
        rw [List.nil_append] at hc
        rw [hc] at hftxt
        cases hftxt
      have : k ∈ groupKeys gs0 := lookupG_ne_nil_mem gs0 k hlk
      rw [hgs]
      exact hkeysperm.mem_iff.mpr this

/-- C5 counterexample: for the literal filenames of the claim the character
at the fixed offset (index 14) is 'x', from the ".txt" suffix, not the
group digit, so the grouper raises the fatal "Cannot identify groupnumber"
exception instead of producing 2 groups. -/
theorem grouping_example_offset_mismatch :
    buildGroups ["run_group1_a.txt", "run_group1_b.txt", "run_group2_a.txt"] =
      .error (.exception "Cannot identify groupnumber x") := rfl

/-- C5 (amended): the grouper reads the group index from the fixed filename
offset 14 and fails fatally when that character is not a digit (which is
exactly what happens on the claim's literal example names); on filenames
whose character at index 14 is the group digit, e.g.
NAME_run_group1_a.txt, NAME_run_group1_b.txt, NAME_run_group2_a.txt, it
produces exactly 2 groups — group 1 with 2 files and group 2 with 1 — and
in general one staging directory per distinct group index (keys strictly
ascending in processing order), with each txt file copied into exactly its
group's directory. -/
theorem groupOutputs_spec :
    (groupOutputs ["NAME_run_group1_a.txt", "NAME_run_group1_b.txt",
        "NAME_run_group2_a.txt"] =
      .ok [(1, ["NAME_run_group1_a.txt", "NAME_run_group1_b.txt"]),
           (2, ["NAME_run_group2_a.txt"])]) ∧
    (buildGroups ["NAME_run_groupX_a.txt"] =
      .error (.exception "Cannot identify groupnumber X")) ∧
    (∀ fns gs, groupOutputs fns = .ok gs →
      List.Sorted (fun a b : Nat => a < b) (groupKeys gs) ∧
      (∀ k fs, (k, fs) ∈ gs → fs = txtFilesOfGroup k fns ∧ fs ≠ []) ∧
      (∀ f k, f ∈ fns → pyEndsWith f "txt" = true → extractGroupnum f = .ok k →
        k ∈ groupKeys gs)) := by
  refine ⟨rfl, rfl, ?_⟩
  intro fns gs h
  obtain ⟨hnd, hsort, hmem, hcompl⟩ := groupOutputs_ok fns gs h
  refine ⟨?_, hmem, hcompl⟩
  have hle : List.Pairwise (fun a b : Nat => a ≤ b) (groupKeys gs) := by
    unfold groupKeys
    rw [List.pairwise_map]
    exact hsort
  have hne : List.Pairwise (fun a b : Nat => a ≠ b) (groupKeys gs) := hnd
  exact (hle.and hne).imp (fun hab => lt_of_le_of_ne hab.1 hab.2)

/-- Witness for C5 (amended): a single-file listing groups into one
strictly-ascending singleton group map. -/
theorem groupOutputs_spec_witness :
    List.Sorted (fun a b : Nat => a < b)
      (groupKeys [(2, ["NAME_run_group2_a.txt"])]) :=
  (groupOutputs_spec.2.2 ["NAME_run_group2_a.txt"]
    [(2, ["NAME_run_group2_a.txt"])] rfl).1

/-- Observable actions of the plot handler: a `response.update_status`
call (message, percent), a render attempt (`drawMap` inside `try/except`;
`true` records a success, `false` a caught-and-logged failure), and a
`shutil.rmtree` of a group's staging directory. -/
inductive Event where
  | status : String → Nat → Event
  | render : Nat → Bool → Event
  | rmtree : Nat → Event
deriving DecidableEq

/-- The progress formula of lines 217, 239, 259, 281, 297 and 310 of
`wps_plot_name.py`: `newper = 10 + int((plots_made / float(tot_plots)) * 85)`.
The float quotient is modelled as the exact rational, whose truncation for
non-negative operands is natural division. -/
def newPercent (plotsMade totPlots : Nat) : Nat :=
  10 + plotsMade * 85 / totPlots

/-- One group's render attempts with their progress bookkeeping — the block
repeated at lines 211-220, 233-242, 253-262, 275-284, 291-300 and 304-313:
try to draw (a failure is caught and logged, the loop continues), increment
`plots_made`, recompute `newper`, and when `oldper != newper` emit a status
update and set `oldper = newper`.  `jobs` lists the success/failure of each
render attempt of the group; the result also carries the final
`(plots_made, oldper)` state. -/
def renderJobs (tot g : Nat) : List Bool → Nat → Nat → List Event × Nat × Nat
  | [], made, oldper => ([], made, oldper)
  | ok :: rest, made, oldper =>
    if oldper ≠ newPercent (made + 1) tot then
      (Event.render g ok :: Event.status "Plotting" (newPercent (made + 1) tot) ::
        (renderJobs tot g rest (made + 1) (newPercent (made + 1) tot)).1,
       (renderJobs tot g rest (made + 1) (newPercent (made + 1) tot)).2)
    else
      (Event.render g ok :: (renderJobs tot g rest (made + 1) oldper).1,
       (renderJobs tot g rest (made + 1) oldper).2)

/-- The group loop of lines 196-316: for each group (already in ascending
index order, see `sortGroups`) run its render attempts, then delete the
group's staging directory (`shutil.rmtree(tmpdir)`, line 316). -/
def processGroups (tot : Nat) : List (Nat × List Bool) → Nat → Nat → List Event × Nat × Nat
  | [], made, oldper => ([], made, oldper)
  | (g, jobs) :: rest, made, oldper =>
    ((renderJobs tot g jobs made oldper).1 ++
      Event.rmtree g ::
        (processGroups tot rest (renderJobs tot g jobs made oldper).2.1
          (renderJobs tot g jobs made oldper).2.2).1,
     (processGroups tot rest (renderJobs tot g jobs made oldper).2.1
       (renderJobs tot g jobs made oldper).2.2).2)

/-- The full status/render/cleanup trace of one plot request
(`PlotNAME._handler` lines 164-337): 'Processed plot parameters' at 5,
'Plotting' at 10, the group loop starting from `plots_made = 0` and
`oldper = 10`, then 'Formatting output' at 95 and 'done' at 100. -/
def plotTrace (tot : Nat) (groups : List (Nat × List Bool)) : List Event :=
  Event.status "Processed plot parameters" 5 ::
    Event.status "Plotting" 10 ::
      ((processGroups tot groups 0 10).1 ++
        [Event.status "Formatting output" 95, Event.status "done" 100])

/-- `tot_plots`: the number of render attempts of the whole request. -/
def totalJobs (groups : List (Nat × List Bool)) : Nat :=
  (groups.map (fun g => g.2.length)).sum

/-- The percentages of the status updates of a trace, in emission order. -/
def statusPercents : List Event → List Nat
  | [] => []
  | Event.status _ p :: rest => p :: statusPercents rest
  | _ :: rest => statusPercents rest

/-- `MonoFrom x l`: starting from `x`, the values of `l` never decrease. -/
def MonoFrom (x : Nat) : List Nat → Prop
  | [] => True
  | y :: l => x ≤ y ∧ MonoFrom y l

/-- The last element of `x :: l`. -/
def lastFrom (x : Nat) : List Nat → Nat
  | [] => x
  | y :: l => lastFrom y l

lemma monoFrom_append :
    ∀ (l1 l2 : List Nat) (x : Nat),
      MonoFrom x l1 → MonoFrom (lastFrom x l1) l2 → MonoFrom x (l1 ++ l2) := by
  intro l1
  induction l1 with
  | nil => intro l2 x _ h2; exact h2
  | cons y l ih =>
    intro l2 x h1 h2
    exact ⟨h1.1, ih l2 y h1.2 h2⟩

lemma lastFrom_append :
    ∀ (l1 l2 : List Nat) (x : Nat),
      lastFrom x (l1 ++ l2) = lastFrom (lastFrom x l1) l2 := by
  intro l1
  induction l1 with
  | nil => intro l2 x; rfl
  | cons y l ih => intro l2 x; exact ih l2 y

lemma monoFrom_le : ∀ (l : List Nat) (x : Nat), MonoFrom x l → x ≤ lastFrom x l := by
  intro l
  induction l with
  | nil => intro x _; exact Nat.le_refl x
  | cons y l ih =>
    intro x h
    exact Nat.le_trans h.1 (ih y h.2)

lemma monoFrom_mem_le :
    ∀ (l : List Nat) (x : Nat), MonoFrom x l → ∀ p ∈ l, p ≤ lastFrom x l := by
  intro l
  induction l with
  | nil => intro x _ p hp; cases hp
  | cons y l ih =>
    intro x h p hp
    rcases List.mem_cons.mp hp with h1 | h1
    · subst h1
      exact monoFrom_le l p h.2
    · exact ih y h.2 p h1

lemma monoFrom_chain :
    ∀ (l : List Nat) (x : Nat), MonoFrom x l →
      List.Chain' (fun a b : Nat => a ≤ b) (x :: l) := by
  intro l
  induction l with
  | nil => intro x _; simp
  | cons y l ih =>
    intro x h
    rw [List.chain'_cons]
    exact ⟨h.1, ih y h.2⟩

lemma newPercent_mono {tot : Nat} {a b : Nat} (h : a ≤ b) :
    newPercent a tot ≤ newPercent b tot :=
  Nat.add_le_add_left (Nat.div_le_div_right (Nat.mul_le_mul_right _ h)) _

lemma newPercent_le_95 {tot m : Nat} (htot : 0 < tot) (h : m ≤ tot) :
    newPercent m tot ≤ 95 := by
  unfold newPercent
  have h1 : m * 85 / tot ≤ tot * 85 / tot :=
    Nat.div_le_div_right (Nat.mul_le_mul_right _ h)
  have h2 : tot * 85 / tot = 85 := by
    rw [Nat.mul_comm, Nat.mul_div_assoc 85 (Nat.dvd_refl tot), Nat.div_self htot]
  omega

lemma newPercent_zero (tot : Nat) : newPercent 0 tot = 10 := by
  simp [newPercent]

lemma statusPercents_append :
    ∀ l1 l2 : List Event,
      statusPercents (l1 ++ l2) = statusPercents l1 ++ statusPercents l2 := by
  intro l1
  induction l1 with
  | nil => intro l2; rfl
  | cons e l ih =>
    intro l2
    cases e <;> simp [statusPercents, ih]

lemma renderJobs_spec (tot g : Nat) :
    ∀ (jobs : List Bool) (made oldper : Nat), oldper = newPercent made tot →
      (renderJobs tot g jobs made oldper).2.1 = made + jobs.length ∧
      (renderJobs tot g jobs made oldper).2.2 = newPercent (made + jobs.length) tot ∧
      MonoFrom oldper (statusPercents (renderJobs tot g jobs made oldper).1) ∧
      lastFrom oldper (statusPercents (renderJobs tot g jobs made oldper).1) =
        newPercent (made + jobs.length) tot ∧
      (∀ p ∈ statusPercents (renderJobs tot g jobs made oldper).1,
        ∃ k, k ≤ made + jobs.length ∧ p = newPercent k tot) := by
  intro jobs
  induction jobs with
  | nil =>
    intro made oldper h
    subst h
    simp [renderJobs, statusPercents, MonoFrom, lastFrom]
  | cons ok rest ih =>
    intro made oldper h
    subst h
    have harg : made + 1 + rest.length = made + (ok :: rest).length := by
      simp [List.length_cons]
      omega
    by_cases hc : newPercent made tot ≠ newPercent (made + 1) tot
    · unfold renderJobs
      rw [if_pos hc]
      obtain ⟨ih1, ih2, ih3, ih4, ih5⟩ := ih (made + 1) (newPercent (made + 1) tot) rfl
      rw [harg] at ih1 ih2 ih4
      refine ⟨by simpa using ih1, by simpa using ih2, ?_, ?_, ?_⟩
      · simp only [statusPercents]
        exact ⟨newPercent_mono (Nat.le_succ made), ih3⟩
      · simp only [statusPercents, lastFrom]
        exact ih4
      · simp only [statusPercents]
        intro p hp
        rcases List.mem_cons.mp hp with h1 | h1
        · exact ⟨made + 1, by simp [List.length_cons], h1⟩
        · obtain ⟨k, hk1, hk2⟩ := ih5 p h1
          exact ⟨k, by rw [List.length_cons]; omega, hk2⟩
    · rw [not_ne_iff] at hc
      unfold renderJobs
      rw [if_neg (by rw [hc]; exact fun hne => hne rfl)]
      rw [hc]
      obtain ⟨ih1, ih2, ih3, ih4, ih5⟩ := ih (made + 1) (newPercent (made + 1) tot) rfl
      rw [harg] at ih1 ih2 ih4
      refine ⟨by simpa using ih1, by simpa using ih2, ?_, ?_, ?_⟩
      · simp only [statusPercents]
        exact ih3
      · simp only [statusPercents]
        exact ih4
      · simp only [statusPercents]
        intro p hp
        obtain ⟨k, hk1, hk2⟩ := ih5 p hp
        exact ⟨k, by rw [List.length_cons]; omega, hk2⟩

lemma processGroups_spec (tot : Nat) :
    ∀ (groups : List (Nat × List Bool)) (made oldper : Nat),
      oldper = newPercent made tot →
      (processGroups tot groups made oldper).2.1 = made + totalJobs groups ∧
      (processGroups tot groups made oldper).2.2 =
        newPercent (made + totalJobs groups) tot ∧
      MonoFrom oldper (statusPercents (processGroups tot groups made oldper).1) ∧
      lastFrom oldper (statusPercents (processGroups tot groups made oldper).1) =
        newPercent (made + totalJobs groups) tot ∧
      (∀ p ∈ statusPercents (processGroups tot groups made oldper).1,
        ∃ k, k ≤ made + totalJobs groups ∧ p = newPercent k tot) := by
  intro groups
  induction groups with
  | nil =>
    intro made oldper h
    subst h
    simp [processGroups, totalJobs, statusPercents, MonoFrom, lastFrom]
  | cons q rest ih =>
    intro made oldper h
    obtain ⟨g, jobs⟩ := q
    obtain ⟨r1, r2, r3, r4, r5⟩ := renderJobs_spec tot g jobs made oldper h
    obtain ⟨q1, q2, q3, q4, q5⟩ := ih (renderJobs tot g jobs made oldper).2.1
      (renderJobs tot g jobs made oldper).2.2 (by rw [r1, r2])
    have htot : totalJobs ((g, jobs) :: rest) = jobs.length + totalJobs rest := by
      simp [totalJobs]
    have hsp : statusPercents (processGroups tot ((g, jobs) :: rest) made oldper).1 =
        statusPercents (renderJobs tot g jobs made oldper).1 ++
          statusPercents (processGroups tot rest (renderJobs tot g jobs made oldper).2.1
            (renderJobs tot g jobs made oldper).2.2).1 := by
      show statusPercents ((renderJobs tot g jobs made oldper).1 ++
          Event.rmtree g :: (processGroups tot rest _ _).1) = _
      rw [statusPercents_append]
      simp [statusPercents]
    have harg : made + jobs.length + totalJobs rest =
        made + (jobs.length + totalJobs rest) := by
      omega
    refine ⟨?_, ?_, ?_, ?_, ?_⟩
    · show (processGroups tot rest (renderJobs tot g jobs made oldper).2.1
        (renderJobs tot g jobs made oldper).2.2).2.1 = _
      rw [q1, r1, htot]
      omega
    · show (processGroups tot rest (renderJobs tot g jobs made oldper).2.1
        (renderJobs tot g jobs made oldper).2.2).2.2 = _
      rw [q2, r1, htot, harg]
    · rw [hsp]
      refine monoFrom_append _ _ _ r3 ?_
      rw [r4, ← r2]
      exact q3
    · rw [hsp, lastFrom_append, r4, ← r2, q4, r1, htot, harg]
    · rw [hsp]
      intro p hp
      rcases List.mem_append.mp hp with h1 | h1
      · obtain ⟨k, hk1, hk2⟩ := r5 p h1
        exact ⟨k, by rw [htot]; omega, hk2⟩
      · obtain ⟨k, hk1, hk2⟩ := q5 p h1
        rw [r1] at hk1
        exact ⟨k, by rw [htot]; omega, hk2⟩

/-- C3: within one plot request, across any sequence of render attempts
(successes and failures mixed, as long as the attempts do not exceed the
precomputed `tot_plots`), the sequence of reported progress percentages is
non-decreasing, and 100 is reported only by the final 'done' update emitted
after output packaging ('Formatting output' at 95) completes. -/
theorem plot_progress_monotone (tot : Nat) (groups : List (Nat × List Bool))
    (htot : 0 < tot) (hle : totalJobs groups ≤ tot) :
    List.Chain' (fun a b : Nat => a ≤ b) (statusPercents (plotTrace tot groups)) ∧
    (statusPercents (plotTrace tot groups)).getLast? = some 100 ∧
    (∀ p ∈ (statusPercents (plotTrace tot groups)).dropLast, p < 100) := by
  obtain ⟨p1, p2, p3, p4, p5⟩ := processGroups_spec tot groups 0 10 (by simp [newPercent])
  rw [Nat.zero_add] at p4 p5
  have hbound : newPercent (totalJobs groups) tot ≤ 95 := newPercent_le_95 htot hle
  have hS : statusPercents (plotTrace tot groups) =
      5 :: 10 :: (statusPercents (processGroups tot groups 0 10).1 ++ [95, 100]) := by
    unfold plotTrace
    rw [show ∀ l : List Event,
        statusPercents (Event.status "Processed plot parameters" 5 ::
          Event.status "Plotting" 10 :: l) = 5 :: 10 :: statusPercents l
      from fun l => rfl]
    rw [statusPercents_append]
    rfl
  have hmono : MonoFrom 5
      (10 :: (statusPercents (processGroups tot groups 0 10).1 ++ [95, 100])) := by
    refine ⟨by omega, ?_⟩
    refine monoFrom_append _ _ _ p3 ?_
    rw [p4]
    exact ⟨hbound, by omega, trivial⟩
  have hsplit : (5 : Nat) :: 10 ::
      (statusPercents (processGroups tot groups 0 10).1 ++ [95, 100]) =
      (5 :: 10 :: (statusPercents (processGroups tot groups 0 10).1 ++ [95])) ++ [100] := by
    simp
  refine ⟨?_, ?_, ?_⟩
  · rw [hS]
    exact monoFrom_chain _ 5 hmono
  · rw [hS, hsplit]
    exact List.getLast?_concat _
  · intro p hp
    rw [hS, hsplit, List.dropLast_concat] at hp
    rcases List.mem_cons.mp hp with h1 | h1
    · omega
    rcases List.mem_cons.mp h1 with h2 | h2
    · omega
    rcases List.mem_append.mp h2 with h3 | h3
    · obtain ⟨k, hk1, hk2⟩ := p5 p h3
      have : p ≤ 95 := by
        rw [hk2]
        exact Nat.le_trans (newPercent_mono hk1) hbound
      omega
    · have : p = 95 := List.mem_singleton.mp h3
      omega

/-- Witness for C3: one group with a single successful render at
`tot_plots = 1` ends its status sequence with the 'done' update at 100. -/
theorem plot_progress_monotone_witness :
    (statusPercents (plotTrace 1 [(1, [true])])).getLast? = some 100 :=
  (plot_progress_monotone 1 [(1, [true])] (by decide) (by decide)).2.1

/-- Modelled from the spec's words for the progress protocol (§4.4): after
every successful-or-failed render the percentage is recomputed as
`10 + floor(renders_done / total_expected * 85)` and a status update is
emitted only when the integer percentage value changes.  `done` counts the
renders already performed before this group's remaining jobs. -/
def specRenderEvents (tot g : Nat) : List Bool → Nat → List Event
  | [], _ => []
  | ok :: rest, done =>
    Event.render g ok ::
      ((if 10 + (done + 1) * 85 / tot = 10 + done * 85 / tot then []
        else [Event.status "Plotting" (10 + (done + 1) * 85 / tot)]) ++
        specRenderEvents tot g rest (done + 1))

/-- Modelled from the spec's words (§4.3-4.4): per group, the render
attempts with their progress updates followed by the removal of the
group's staging directory. -/
def specProcessGroups (tot : Nat) : List (Nat × List Bool) → Nat → List Event
  | [], _ => []
  | (g, jobs) :: rest, done =>
    specRenderEvents tot g jobs done ++
      Event.rmtree g :: specProcessGroups tot rest (done + jobs.length)

lemma renderJobs_eq_specRenderEvents (tot g : Nat) :
    ∀ (jobs : List Bool) (made oldper : Nat), oldper = newPercent made tot →
      (renderJobs tot g jobs made oldper).1 = specRenderEvents tot g jobs made := by
  intro jobs
  induction jobs with
  | nil => intro made oldper h; rfl
  | cons ok rest ih =>
    intro made oldper h
    subst h
    by_cases hc : newPercent made tot ≠ newPercent (made + 1) tot
    · unfold renderJobs specRenderEvents
      rw [if_pos hc]
      rw [if_neg (show ¬ (10 + (made + 1) * 85 / tot = 10 + made * 85 / tot) from
        fun he => hc (he.symm))]
      rw [ih (made + 1) (newPercent (made + 1) tot) rfl]
      rfl
    · rw [not_ne_iff] at hc
      unfold renderJobs specRenderEvents
      rw [if_neg (show ¬ (newPercent made tot ≠ newPercent (made + 1) tot) from by
        rw [hc]; exact fun hne => hne rfl)]
      rw [if_pos (show 10 + (made + 1) * 85 / tot = 10 + made * 85 / tot from hc.symm)]
      rw [hc, ih (made + 1) (newPercent (made + 1) tot) rfl]
      rfl

/-- C9: the orchestrator's per-render bookkeeping refines the spec's
formula.  After every render attempt (success or failure alike) the
percentage is `10 + floor(renders_done / total_expected * 85)` and a status
update appears in the trace exactly when that integer differs from the
previously emitted one (`oldper`, which always equals the formula at the
previous count); this holds within each group and across the whole group
loop. -/
theorem progress_update_formula :
    (∀ (tot g : Nat) (jobs : List Bool) (made : Nat),
      (renderJobs tot g jobs made (newPercent made tot)).1 =
        specRenderEvents tot g jobs made) ∧
    (∀ (tot : Nat) (groups : List (Nat × List Bool)),
      (processGroups tot groups 0 10).1 = specProcessGroups tot groups 0) := by
  constructor
  · intro tot g jobs made
    exact renderJobs_eq_specRenderEvents tot g jobs made _ rfl
  · intro tot groups
    have main : ∀ (gs : List (Nat × List Bool)) (made oldper : Nat),
        oldper = newPercent made tot →
        (processGroups tot gs made oldper).1 = specProcessGroups tot gs made := by
      intro gs
      induction gs with
      | nil => intro made oldper h; rfl
      | cons q rest ih =>
        intro made oldper h
        obtain ⟨g, jobs⟩ := q
        obtain ⟨r1, r2, _, _, _⟩ := renderJobs_spec tot g jobs made oldper h
        show (renderJobs tot g jobs made oldper).1 ++
            Event.rmtree g :: (processGroups tot rest
              (renderJobs tot g jobs made oldper).2.1
              (renderJobs tot g jobs made oldper).2.2).1 = _
        rw [renderJobs_eq_specRenderEvents tot g jobs made oldper h]
        rw [ih (renderJobs tot g jobs made oldper).2.1
          (renderJobs tot g jobs made oldper).2.2 (by rw [r1, r2])]
        rw [r1]
        rfl
    exact main groups 0 10 (by simp [newPercent])

/-- The trace suffix strictly after the first deletion of group `g`'s
staging directory. -/
def eventsAfterRmtree (g : Nat) : List Event → List Event
  | [] => []
  | e :: rest => if e = Event.rmtree g then rest else eventsAfterRmtree g rest

lemma eventsAfterRmtree_append_not_mem (g : Nat) :
    ∀ l1 l2 : List Event, Event.rmtree g ∉ l1 →
      eventsAfterRmtree g (l1 ++ l2) = eventsAfterRmtree g l2 := by
  intro l1
  induction l1 with
  | nil => intro l2 _; rfl
  | cons e l ih =>
    intro l2 h
    have he : ¬ e = Event.rmtree g := fun hc => h (by rw [hc]; simp)
    show eventsAfterRmtree g (e :: (l ++ l2)) = _
    simp only [eventsAfterRmtree, if_neg he]
    exact ih l2 (fun hc => h (List.mem_cons_of_mem _ hc))

lemma eventsAfterRmtree_cons_self (g : Nat) (l : List Event) :
    eventsAfterRmtree g (Event.rmtree g :: l) = l := by
  simp [eventsAfterRmtree]

lemma renderJobs_events (tot g : Nat) :
    ∀ (jobs : List Bool) (made oldper : Nat),
      ∀ e ∈ (renderJobs tot g jobs made oldper).1,
        (∃ ok, e = Event.render g ok) ∨ (∃ p, e = Event.status "Plotting" p) := by
  intro jobs
  induction jobs with
  | nil => intro made oldper e he; cases he
  | cons ok rest ih =>
    intro made oldper e he
    unfold renderJobs at he
    by_cases hc : oldper ≠ newPercent (made + 1) tot
    · rw [if_pos hc] at he
      rcases List.mem_cons.mp he with h1 | h1
      · exact Or.inl ⟨ok, h1⟩
      rcases List.mem_cons.mp h1 with h2 | h2
      · exact Or.inr ⟨newPercent (made + 1) tot, h2⟩
      · exact ih (made + 1) (newPercent (made + 1) tot) e h2
    · rw [if_neg hc] at he
      rcases List.mem_cons.mp he with h1 | h1
      · exact Or.inl ⟨ok, h1⟩
      · exact ih (made + 1) oldper e h1

lemma renderJobs_no_rmtree (tot g g2 : Nat) (jobs : List Bool) (made oldper : Nat) :
    Event.rmtree g2 ∉ (renderJobs tot g jobs made oldper).1 := by
  intro hmem
  rcases renderJobs_events tot g jobs made oldper _ hmem with ⟨ok, he⟩ | ⟨p, he⟩ <;>
    exact Event.noConfusion he

lemma processGroups_no_g (tot : Nat) :
    ∀ (groups : List (Nat × List Bool)) (made oldper g : Nat),
      g ∉ groups.map Prod.fst →
      ∀ e ∈ (processGroups tot groups made oldper).1,
        e ≠ Event.rmtree g ∧ ∀ ok, e ≠ Event.render g ok := by
  intro groups
  induction groups with
  | nil => intro made oldper g _ e he; cases he
  | cons q rest ih =>
    intro made oldper g hg e he
    obtain ⟨g0, jobs0⟩ := q
    have hg0 : ¬ g0 = g := by
      intro hc
      exact hg (by rw [← hc]; exact List.mem_map_of_mem Prod.fst (List.mem_cons_self _ _))
    have hgrest : g ∉ rest.map Prod.fst := by
      intro hc
      apply hg
      rw [List.map_cons]
      exact List.mem_cons_of_mem _ hc
    rcases List.mem_append.mp (by
        simpa only [processGroups] using he :
          e ∈ (renderJobs tot g0 jobs0 made oldper).1 ++
            Event.rmtree g0 ::
              (processGroups tot rest (renderJobs tot g0 jobs0 made oldper).2.1
                (renderJobs tot g0 jobs0 made oldper).2.2).1) with h1 | h1
    · rcases renderJobs_events tot g0 jobs0 made oldper e h1 with ⟨ok, hee⟩ | ⟨p, hee⟩
      · subst hee
        refine ⟨Event.noConfusion, fun ok2 hc => ?_⟩
        injection hc with hc1 hc2
        exact hg0 hc1
      · subst hee
        exact ⟨Event.noConfusion, fun ok2 => Event.noConfusion⟩
    · rcases List.mem_cons.mp h1 with h2 | h2
      · subst h2
        refine ⟨fun hc => ?_, fun ok2 => Event.noConfusion⟩
        injection hc with hc1
        exact hg0 hc1
      · exact ih _ _ g hgrest e h2

lemma eventsAfterRmtree_append_mem (g : Nat) :
    ∀ l1 l2 : List Event, Event.rmtree g ∈ l1 →
      eventsAfterRmtree g (l1 ++ l2) = eventsAfterRmtree g l1 ++ l2 := by
  intro l1
  induction l1 with
  | nil => intro l2 h; cases h
  | cons e l ih =>
    intro l2 h
    by_cases he : e = Event.rmtree g
    · simp [eventsAfterRmtree, he]
    · simp only [List.cons_append, eventsAfterRmtree, if_neg he]
      refine ih l2 ?_
      rcases List.mem_cons.mp h with h1 | h1
      · exact absurd h1.symm he
      · exact h1

lemma processGroups_cleanup (tot : Nat) :
    ∀ (groups : List (Nat × List Bool)) (made oldper g : Nat) (jobs : List Bool),
      (groups.map Prod.fst).Nodup → (g, jobs) ∈ groups →
      Event.rmtree g ∈ (processGroups tot groups made oldper).1 ∧
      ∀ e ∈ eventsAfterRmtree g (processGroups tot groups made oldper).1,
        e ≠ Event.rmtree g ∧ ∀ ok, e ≠ Event.render g ok := by
  intro groups
  induction groups with
  | nil => intro _ _ g jobs _ hmem; cases hmem
  | cons q rest ih =>
    intro made oldper g jobs hnd hmem
    obtain ⟨g0, jobs0⟩ := q
    have hshape : (processGroups tot ((g0, jobs0) :: rest) made oldper).1 =
        (renderJobs tot g0 jobs0 made oldper).1 ++
          Event.rmtree g0 :: (processGroups tot rest
            (renderJobs tot g0 jobs0 made oldper).2.1
            (renderJobs tot g0 jobs0 made oldper).2.2).1 := rfl
    rw [List.map_cons, List.nodup_cons] at hnd
    by_cases hg : g0 = g
    · subst hg
      constructor
      · rw [hshape]
        exact List.mem_append_right _ (List.mem_cons_self _ _)
      · intro e he
        rw [hshape] at he
        rw [eventsAfterRmtree_append_not_mem g0 _ _
          (renderJobs_no_rmtree tot g0 g0 jobs0 made oldper)] at he
        rw [eventsAfterRmtree_cons_self] at he
        exact processGroups_no_g tot rest _ _ g0 hnd.1 e he
    · have hmemrest : (g, jobs) ∈ rest := by
        rcases List.mem_cons.mp hmem with h1 | h1
        · injection h1 with h2 h3
          exact absurd h2.symm hg
        · exact h1
      obtain ⟨ih1, ih2⟩ := ih (renderJobs tot g0 jobs0 made oldper).2.1
        (renderJobs tot g0 jobs0 made oldper).2.2 g jobs hnd.2 hmemrest
      constructor
      · rw [hshape]
        exact List.mem_append_right _ (List.mem_cons_of_mem _ ih1)
      · intro e he
        rw [hshape] at he
        have hno : Event.rmtree g ∉
            (renderJobs tot g0 jobs0 made oldper).1 ++ [Event.rmtree g0] := by
          intro hc
          rcases List.mem_append.mp hc with h1 | h1
          · exact renderJobs_no_rmtree tot g0 g jobs0 made oldper h1
          · have h2 := List.mem_singleton.mp h1
            injection h2 with h3
            exact hg h3.symm
        rw [show (renderJobs tot g0 jobs0 made oldper).1 ++
            Event.rmtree g0 :: (processGroups tot rest
              (renderJobs tot g0 jobs0 made oldper).2.1
              (renderJobs tot g0 jobs0 made oldper).2.2).1 =
            ((renderJobs tot g0 jobs0 made oldper).1 ++ [Event.rmtree g0]) ++
              (processGroups tot rest
                (renderJobs tot g0 jobs0 made oldper).2.1
                (renderJobs tot g0 jobs0 made oldper).2.2).1 from by simp] at he
        rw [eventsAfterRmtree_append_not_mem g _ _ hno] at he
        exact ih2 e he

/-- C7: for every group of a plot request (group indices are distinct, as
they are the keys of the `groups` dict), the group's staging directory is
deleted exactly once the group's render attempts complete — whatever mix of
successes and caught failures the attempts were — and never again touched:
after the `rmtree` of group `g` the trace holds no further render of `g`
and no further deletion of `g`'s directory. -/
theorem staging_dir_cleanup (tot : Nat) (groups : List (Nat × List Bool))
    (g : Nat) (jobs : List Bool)
    (hnd : (groups.map Prod.fst).Nodup) (hmem : (g, jobs) ∈ groups) :
    Event.rmtree g ∈ plotTrace tot groups ∧
    Event.rmtree g ∉ eventsAfterRmtree g (plotTrace tot groups) ∧
    ∀ ok, Event.render g ok ∉ eventsAfterRmtree g (plotTrace tot groups) := by
  obtain ⟨h1, h2⟩ := processGroups_cleanup tot groups 0 10 g jobs hnd hmem
  have heaft : eventsAfterRmtree g (plotTrace tot groups) =
      eventsAfterRmtree g (processGroups tot groups 0 10).1 ++
        [Event.status "Formatting output" 95, Event.status "done" 100] := by
    unfold plotTrace
    rw [show eventsAfterRmtree g (Event.status "Processed plot parameters" 5 ::
        Event.status "Plotting" 10 :: ((processGroups tot groups 0 10).1 ++
          [Event.status "Formatting output" 95, Event.status "done" 100])) =
        eventsAfterRmtree g ((processGroups tot groups 0 10).1 ++
          [Event.status "Formatting output" 95, Event.status "done" 100]) from by
      simp [eventsAfterRmtree]]
    exact eventsAfterRmtree_append_mem g _ _ h1
  refine ⟨?_, ?_, ?_⟩
  · unfold plotTrace
    exact List.mem_cons_of_mem _ (List.mem_cons_of_mem _ (List.mem_append_left _ h1))
  · rw [heaft]
    intro hc
    rcases List.mem_append.mp hc with hc1 | hc1
    · exact (h2 _ hc1).1 rfl
    · simp at hc1
  · intro ok
    rw [heaft]
    intro hc
    rcases List.mem_append.mp hc with hc1 | hc1
    · exact (h2 _ hc1).2 ok rfl
    · simp at hc1

/-- Witness for C7: the single group of a two-attempt request (one success,
one failure) has its staging directory deleted. -/
theorem staging_dir_cleanup_witness :
    Event.rmtree 1 ∈ plotTrace 1 [(1, [true, false])] :=
  (staging_dir_cleanup 1 [(1, [true, false])] 1 [true, false]
    (by decide) (by decide)).1
